import Mathlib

/-!
Verification of the process-lifecycle controller and debug-session multiplexer
of the electron-agent-tools repository, as a shallow embedding in Lean 4.

The definitions below are translated from the TypeScript sources:
  src/lib/playwright-driver.ts  (target picker, window race, world classification,
                                 console buffer)
  src/lib/launch-electron.ts    (termination controller, launch race, env
                                 construction, leaf-pid resolution, log cleanup)
  src/lib/get-ws-url.ts         (endpoint discovery polling loop)

Effectful collaborators (timers, the OS process table, HTTP fetch, CDP events)
are modelled as explicit inputs: oracles for process aliveness, schedules of
promise settlement times, and per-attempt fetch outcomes.  JavaScript string
truthiness (empty string and 0 are falsy) is modelled explicitly wherever the
source relies on it.
-/

namespace ElectronAgentTools

/-! ## String helpers (JS String.startsWith / String.includes / toLowerCase) -/

/-- Character-list version of JS String.startsWith. -/
def startsWithChars : List Char → List Char → Bool
  | _, [] => true
  | [], _ :: _ => false
  | c :: cs, p :: ps => c == p && startsWithChars cs ps

/-- Character-list version of JS String.includes (substring containment). -/
def hasSubChars : List Char → List Char → Bool
  | l, pat =>
    if startsWithChars l pat then true
    else
      match l with
      | [] => false
      | _ :: rest => hasSubChars rest pat

/-- JS s.startsWith(p). -/
def strStarts (s p : String) : Bool := startsWithChars s.toList p.toList

/-- JS s.includes(p). -/
def strIncludes (s p : String) : Bool := hasSubChars s.toList p.toList

/-- JS s.toLowerCase() (ASCII case folding; enough for the commands involved). -/
def strLower (s : String) : String := String.mk (s.toList.map Char.toLower)

/-- JS truthiness of an optional string: undefined and the empty string are falsy. -/
def strTruthy : Option String → Bool
  | some s => !s.isEmpty
  | none => false

/-! ## Data model shared with src/lib/types.ts -/

/-- ConsoleSource from src/lib/types.ts; also used as the logical "world" of an
execution context. -/
inductive ConsoleSource
  | main
  | preload
  | renderer
  | isolated
  | worker
  | unknown
deriving DecidableEq, Repr

/-- AppErrorCode from src/lib/error-codes.ts. -/
inductive AppErrCode
  | E_SELECTOR
  | E_NO_PAGE
  | E_WAIT_TIMEOUT
  | E_FS
  | E_INTERNAL
deriving DecidableEq, Repr

/-! ## Target picker (scorePage / pickBestPage, src/lib/playwright-driver.ts) -/

/-- A page as the target picker sees it: its url and (already fetched) title.
In the source the title read is wrapped in try/catch defaulting to the empty
string; the field holds that resulting value. -/
structure PageModel where
  url : String
  title : String
deriving DecidableEq, Repr

/-- ConnectOptions.pick from src/lib/types.ts. -/
structure Pick where
  titleContains : Option String
  urlIncludes : Option String
deriving DecidableEq, Repr

/-- Field access through the optional pick object (JS pick?.titleContains). -/
def pickTitleContains : Option Pick → Option String
  | some p => p.titleContains
  | none => none

/-- Field access through the optional pick object (JS pick?.urlIncludes). -/
def pickUrlIncludes : Option Pick → Option String
  | some p => p.urlIncludes
  | none => none

/-- The PREFERRED_PREFIXES constant of src/lib/playwright-driver.ts: url schemes
that earn the +5 base bonus. -/
def preferredUrlSchemes : List String :=
  ["app://", "file://", "http://localhost", "https://localhost", "http://127.0.0.1"]

/-- JS (hint && hay.includes(hint)): the hint must be truthy (present and
non-empty) and occur in the haystack. -/
def hintMatches (hint : Option String) (hay : String) : Bool :=
  match hint with
  | some h => if h.isEmpty then false else strIncludes hay h
  | none => false

/-- JS (hint ? hay.includes(hint) : true): a falsy (absent or empty) hint is
vacuously satisfied. -/
def hintSatisfied (hint : Option String) (hay : String) : Bool :=
  match hint with
  | some h => if h.isEmpty then true else strIncludes hay h
  | none => true

/-- scorePage from src/lib/playwright-driver.ts: base 0, +5 for a preferred
local/app scheme, +4 for a matching urlIncludes hint, +4 for a matching
titleContains hint. -/
def scorePage (pick : Option Pick) (page : PageModel) : Nat :=
  let s0 := 0
  let s1 := if preferredUrlSchemes.any (fun p => strStarts page.url p) then s0 + 5 else s0
  let s2 := if hintMatches (pickUrlIncludes pick) page.url then s1 + 4 else s1
  let s3 := if hintMatches (pickTitleContains pick) page.title then s2 + 4 else s2
  s3

/-- The matchesPick expression inside PlaywrightDriver.#pickBestPage:
true when pick is absent or requireMatch is off; otherwise every specified
hint must be satisfied. -/
def matchesPick (pick : Option Pick) (requireMatch : Bool) (page : PageModel) : Bool :=
  match pick with
  | none => true
  | some p =>
    if !requireMatch then true
    else hintSatisfied p.titleContains page.title && hintSatisfied p.urlIncludes page.url

/-- One step of the best-page scan: skip pages failing matchesPick under
requireMatch, otherwise keep the strictly higher-scoring page. -/
def pickBestStep (pick : Option Pick) (requireMatch : Bool)
    (best : Option PageModel) (page : PageModel) : Option PageModel :=
  if requireMatch && !matchesPick pick requireMatch page then best
  else
    match best with
    | none => some page
    | some b => if scorePage pick page > scorePage pick b then some page else best

/-- PlaywrightDriver.#pickBestPage: scan all open pages, excluding non-matching
pages when requireMatch is set, returning the first highest-scoring page. -/
def pickBestPage (pages : List PageModel) (pick : Option Pick) (requireMatch : Bool) :
    Option PageModel :=
  pages.foldl (pickBestStep pick requireMatch) none

/-! ## Window wait race (PlaywrightDriver.waitForWindow) -/

/-- How a single per-context waiter (ctx.waitForEvent of the page event with a
timeout) eventually settles. -/
inductive WaiterOutcome
  | newPage (p : PageModel)
  | timedOut
deriving DecidableEq, Repr

/-- One per-context waiter of the window race: its eventual outcome and the
time at which that settlement happens. -/
structure Waiter where
  outcome : WaiterOutcome
  settleAt : Nat
deriving DecidableEq, Repr

/-- Promise.race over the waiters: the first-settling promise wins (minimal
settle time; the earlier-registered waiter wins a tie). -/
def raceWinner : List Waiter → Option Waiter
  | [] => none
  | w :: ws => some (ws.foldl (fun best c => if c.settleAt < best.settleAt then c else best) w)

/-- Result of a waitForWindow call. An empty race (no browsing context) never
settles, which we record as pending. -/
inductive WaitOutcome
  | resolved (page : PageModel)
  | rejected (code : AppErrCode)
  | pending
deriving DecidableEq, Repr

/-- The mustMatch flag of waitForWindow: Boolean(pick?.titleContains || pick?.urlIncludes). -/
def mustMatchOf (pick : Option Pick) : Bool :=
  strTruthy (pickTitleContains pick) || strTruthy (pickUrlIncludes pick)

/-- PlaywrightDriver.waitForWindow: immediate pickBestPage match first; else a
Promise.race of per-context new-page waiters.  Returns the call result together
with the list of created waiters paired with their final cancelled flag (the
source sets cancelled on every waiter in both the success and the error
branch).  No waiters are created when an immediate match exists. -/
def waitForWindow (pages : List PageModel) (pick : Option Pick) (waiters : List Waiter) :
    WaitOutcome × List (Waiter × Bool) :=
  match pickBestPage pages pick (mustMatchOf pick) with
  | some page => (WaitOutcome.resolved page, [])
  | none =>
    match raceWinner waiters with
    | none => (WaitOutcome.pending, [])
    | some w =>
      match w.outcome with
      | WaiterOutcome.newPage p => (WaitOutcome.resolved p, waiters.map (fun wt => (wt, true)))
      | WaiterOutcome.timedOut =>
        (WaitOutcome.rejected AppErrCode.E_WAIT_TIMEOUT, waiters.map (fun wt => (wt, true)))

/-- A loser waiter whose timeout eventually fires re-throws unless its
cancelled flag was set; an uncancelled timed-out waiter is an unhandled
background rejection.  Count those. -/
def unhandledRejections (created : List (Waiter × Bool)) : Nat :=
  created.countP (fun wc => wc.1.outcome == WaiterOutcome.timedOut && !wc.2)

/-! ## Console buffer (PlaywrightDriver.flushConsole) -/

/-- ConsoleEntry from src/lib/types.ts (args/location omitted: they do not
take part in the flush filter). -/
structure ConsoleEntry where
  source : ConsoleSource
  type : String
  text : String
  ts : Nat
deriving DecidableEq, Repr

/-- FlushConsoleOptions from src/lib/types.ts. -/
structure FlushConsoleOptions where
  sources : Option (List ConsoleSource)
  sinceTs : Option Nat
deriving DecidableEq, Repr

/-- The filter predicate of flushConsole.  JS truthiness: an absent sources
array means no source filter (a present but empty array matches nothing), and
sinceTs equal to 0 is falsy, i.e. no timestamp filter. -/
def consoleFilterPred (opts : FlushConsoleOptions) (e : ConsoleEntry) : Bool :=
  let sourceOk :=
    match opts.sources with
    | some l => l.contains e.source
    | none => true
  let tsOk :=
    match opts.sinceTs with
    | some t => if t == 0 then true else decide (t ≤ e.ts)
    | none => true
  sourceOk && tsOk

/-- PlaywrightDriver.flushConsole: returns the filtered entries and replaces
the buffer with the entries that were not in the flushed list. -/
def flushConsole (buffer : List ConsoleEntry) (opts : FlushConsoleOptions) :
    List ConsoleEntry × List ConsoleEntry :=
  let filtered := buffer.filter (consoleFilterPred opts)
  (filtered, buffer.filter (fun e => !(filtered.contains e)))

/-! ## World classification (classifyWorld and the Runtime.executionContextCreated
handler of PlaywrightDriver.#wirePageSession) -/

/-- The auxData record read by classifyWorld; absent string fields read as the
empty string and an absent isDefault reads as false, exactly as the source
coerces them. -/
structure AuxData where
  type : String
  name : String
  isDefault : Bool
  frameId : Option String
deriving DecidableEq, Repr

/-- classifyWorld from src/lib/playwright-driver.ts. -/
def classifyWorld (auxData : Option AuxData) : ConsoleSource :=
  let type :=
    match auxData with
    | some a => a.type
    | none => ""
  let name :=
    match auxData with
    | some a => a.name
    | none => ""
  let isDefault :=
    match auxData with
    | some a => a.isDefault
    | none => false
  if type == "worker" || type == "service_worker" || type == "shared_worker" then
    ConsoleSource.worker
  else if type == "node" then ConsoleSource.main
  else if type == "isolated" && strIncludes (strLower name) "preload" then ConsoleSource.preload
  else if isDefault || type == "default" || type == "main" then ConsoleSource.renderer
  else if type == "isolated" then ConsoleSource.isolated
  else ConsoleSource.unknown

/-- The execution context description delivered by the protocol event. -/
structure CtxDesc where
  id : Nat
  name : String
  auxData : Option AuxData
deriving DecidableEq, Repr

/-- ContextInfo of the per-page context registry. -/
structure ContextInfo where
  id : Nat
  world : ConsoleSource
  frameId : Option String
deriving DecidableEq, Repr

/-- Map.set semantics of the contexts registry: replace the entry with the same
id in place, otherwise append. -/
def contextsSet (contexts : List ContextInfo) (info : ContextInfo) : List ContextInfo :=
  if contexts.any (fun c => c.id == info.id) then
    contexts.map (fun c => if c.id == info.id then info else c)
  else contexts ++ [info]

/-- The world assigned to a newly created context by the
Runtime.executionContextCreated handler: classifyWorld first, then the
Electron Isolated Context name override, then the first-isolated-context
preload promotion (skipping the automation tool's own utility world). -/
def assignWorld (contexts : List ContextInfo) (ctx : CtxDesc) : ConsoleSource :=
  let world0 := classifyWorld ctx.auxData
  let isPlaywrightUtility := strStarts ctx.name "__playwright_utility_world"
  let world1 :=
    if strIncludes ctx.name "Electron Isolated Context" then ConsoleSource.preload else world0
  let hasPreload := contexts.any (fun c => c.world == ConsoleSource.preload)
  if world1 == ConsoleSource.isolated && !hasPreload && !isPlaywrightUtility then
    ConsoleSource.preload
  else world1

/-- One Runtime.executionContextCreated event applied to the registry. -/
def handleContextCreated (contexts : List ContextInfo) (ctx : CtxDesc) : List ContextInfo :=
  let world := assignWorld contexts ctx
  let frameId :=
    match ctx.auxData with
    | some a => a.frameId
    | none => none
  contextsSet contexts { id := ctx.id, world := world, frameId := frameId }

/-- A whole simulated context-creation sequence, applied in order to an empty
registry. -/
def runContextSequence (ctxs : List CtxDesc) : List ContextInfo :=
  ctxs.foldl handleContextCreated []

/-! ## Termination controller (terminateTree, src/lib/launch-electron.ts)

The aliveness of the target process is an oracle indexed by observation
number: check i is the i-th isAlive call the function makes.  Signals and the
pkill fallback are effects on the process, not on the control flow, so they do
not appear in the return value beyond the checks.  pollCount is the number of
iterations the deadline poll loop performs before Date.now() passes the
deadline. -/

/-- The graduated-signal loop on POSIX: after each signal (SIGINT, SIGTERM,
SIGKILL) and its settle wait, return true as soon as the process is dead. -/
def signalSweep (alive : Nat → Bool) : List Nat → Bool
  | [] => false
  | i :: rest => if !(alive i) then true else signalSweep alive rest

/-- The bounded deadline poll: checks n successive aliveness observations
starting at index i, succeeding on the first dead observation. -/
def pollUntil (alive : Nat → Bool) : Nat → Nat → Bool
  | 0, _ => false
  | n + 1, i => if !(alive i) then true else pollUntil alive n (i + 1)

/-- terminateTree (POSIX branch): three graduated signals with a check after
each, then the deadline poll, then the pkill child sweep followed by a final
check; false only if every observation saw the process alive. -/
def terminateTree (alive : Nat → Bool) (pollCount : Nat) : Bool :=
  if signalSweep alive [0, 1, 2] then true
  else if pollUntil alive pollCount 3 then true
  else !(alive (3 + pollCount))

/-- terminateTree (Windows branch): two taskkill phases (non-forced then
forced) with a check after each, then the deadline poll, then a final check;
same shape as the POSIX branch with two leading checks instead of three. -/
def terminateTreeWin32 (alive : Nat → Bool) (pollCount : Nat) : Bool :=
  if signalSweep alive [0, 1] then true
  else if pollUntil alive pollCount 2 then true
  else !(alive (2 + pollCount))

/-! ## Endpoint discovery (getWsUrl, src/lib/get-ws-url.ts)

The fetch of the /json/version endpoint is an oracle indexed by attempt
number; dur gives the raw duration a request would take if it were never
aborted.  Time starts at 0 and the deadline is the overall timeout. -/

/-- PER_REQUEST_TIMEOUT_MS from src/lib/get-ws-url.ts. -/
def PER_REQUEST_TIMEOUT_MS : Nat := 1500

/-- The polled metadata URL. -/
def wsVersionUrl (port : Nat) : String :=
  "http://127.0.0.1:" ++ toString port ++ "/json/version"

/-- Outcome of one fetch attempt: an OK response (whose JSON may or may not
contain webSocketDebuggerUrl), a non-OK HTTP status, or a thrown error
(network failure or abort). -/
inductive FetchOutcome
  | httpOk (wsDebugUrl : Option String)
  | httpNotOk
  | fetchError (msg : String)
deriving DecidableEq, Repr

/-- The details object attached to the timeout error thrown by getWsUrl. -/
structure WsTimeoutDetails where
  port : Nat
  timeoutMs : Nat
  lastError : Option String
deriving DecidableEq, Repr

/-- Result of endpoint discovery: the debugger address, or the timeout error
with its details object. -/
inductive GetWsResult
  | ok (url : String)
  | timeoutErr (details : WsTimeoutDetails)
deriving DecidableEq, Repr

/-- The abort bound armed for one attempt: min of the fixed per-request
timeout and the remaining overall budget. -/
def attemptBudget (timeoutMs now : Nat) : Nat :=
  min PER_REQUEST_TIMEOUT_MS (timeoutMs - now)

/-- The polling loop of getWsUrl.  Each iteration runs while now is before the
deadline: the attempt consumes min(dur, abort bound) time, a non-OK status or
an OK response without a debugger url just falls through, an error is recorded
as lastError, and 400 ms elapse between attempts.  Fuel only bounds the
recursion; since every iteration advances time by at least 400 ms, the
timeoutMs + 1 fuel supplied by getWsUrl is never exhausted while time
remains. -/
def getWsUrlLoop (env : Nat → FetchOutcome) (dur : Nat → Nat) (port timeoutMs : Nat) :
    Nat → Nat → Nat → Option String → GetWsResult
  | 0, _, _, lastError => GetWsResult.timeoutErr ⟨port, timeoutMs, lastError⟩
  | fuel + 1, now, attempt, lastError =>
    if now < timeoutMs then
      match env attempt with
      | FetchOutcome.httpOk (some url) => GetWsResult.ok url
      | FetchOutcome.httpOk none =>
        getWsUrlLoop env dur port timeoutMs fuel
          (now + min (dur attempt) (attemptBudget timeoutMs now) + 400) (attempt + 1) lastError
      | FetchOutcome.httpNotOk =>
        getWsUrlLoop env dur port timeoutMs fuel
          (now + min (dur attempt) (attemptBudget timeoutMs now) + 400) (attempt + 1) lastError
      | FetchOutcome.fetchError msg =>
        getWsUrlLoop env dur port timeoutMs fuel
          (now + min (dur attempt) (attemptBudget timeoutMs now) + 400) (attempt + 1) (some msg)
    else GetWsResult.timeoutErr ⟨port, timeoutMs, lastError⟩

/-- getWsUrl: an absent timeoutMs defaults to 30000 ms. -/
def getWsUrl (env : Nat → FetchOutcome) (dur : Nat → Nat) (port : Nat)
    (timeoutMs : Option Nat) : GetWsResult :=
  let t := timeoutMs.getD 30000
  getWsUrlLoop env dur port t (t + 1) 0 0 none

/-! ## Launch race (launchElectron, src/lib/launch-electron.ts) -/

/-- An early child-lifecycle failure: a spawn error, or an exit/close with an
exit code and signal. -/
inductive EarlyEvent
  | spawnError (msg : String)
  | exited (code : Option Int) (signal : Option String)
deriving DecidableEq, Repr

/-- The LaunchError taxonomy with the detail payloads the source attaches. -/
inductive LaunchErrorModel
  | E_SPAWN (stderrPath : String) (msg : String)
  | E_EXIT_EARLY (code : Option Int) (signal : Option String) (stderrPath : String)
  | E_CDP_TIMEOUT (details : WsTimeoutDetails)
deriving DecidableEq, Repr

/-- The settlement schedule of the Promise.race inside launchElectron: when
and how the getWsUrl promise settles, and the first early child-lifecycle
event, if any, with its time. -/
structure LaunchSchedule where
  wsSettleAt : Nat
  wsOutcome : GetWsResult
  early : Option (Nat × EarlyEvent)
deriving DecidableEq, Repr

/-- Result of a launchElectron call: the resolved debugger address, or the
LaunchError the promise rejects with. -/
inductive LaunchResultModel
  | ok (wsUrl : String)
  | error (e : LaunchErrorModel)
deriving DecidableEq, Repr

/-- The result when the getWsUrl promise governs the race: its success value,
or its plain timeout error wrapped into E_CDP_TIMEOUT by the catch block
(a plain error is not a LaunchError instance). -/
def wsGoverns (s : LaunchSchedule) : LaunchResultModel :=
  match s.wsOutcome with
  | GetWsResult.ok url => LaunchResultModel.ok url
  | GetWsResult.timeoutErr d => LaunchResultModel.error (LaunchErrorModel.E_CDP_TIMEOUT d)

/-- launchElectron's race and catch: an early failure that settles strictly
before the getWsUrl promise rejects with the corresponding LaunchError;
otherwise the getWsUrl result governs (the cdpReady guard makes any later
child exit a no-op). -/
def launchRace (stderrPath : String) (s : LaunchSchedule) : LaunchResultModel :=
  match s.early with
  | none => wsGoverns s
  | some (t, ev) =>
    if t < s.wsSettleAt then
      match ev with
      | EarlyEvent.spawnError msg => LaunchResultModel.error (LaunchErrorModel.E_SPAWN stderrPath msg)
      | EarlyEvent.exited code signal =>
        LaunchResultModel.error (LaunchErrorModel.E_EXIT_EARLY code signal stderrPath)
    else wsGoverns s

/-! ## Leaf pid resolution (listChildren / resolveElectronPid) -/

/-- One row of the ps output: pid, parent pid, command line. -/
structure PsEntry where
  pid : Nat
  ppid : Nat
  cmd : String
deriving DecidableEq, Repr

/-- A descendant row with its depth in the process tree. -/
structure PsRow where
  pid : Nat
  ppid : Nat
  cmd : String
  depth : Nat
deriving DecidableEq, Repr

/-- The recursive visit of listChildren: for each table row whose parent is
the current pid, append it (unless already collected) and recurse into it
before moving to the next sibling.  Fuel bounds the nesting depth; each
nested call is preceded by collecting a fresh pid, so rows.length + 1 is
always enough. -/
def visitChildren (rows : List PsEntry) : Nat → Nat → Nat → List PsRow → List PsRow
  | 0, _, _, acc => acc
  | fuel + 1, parent, depth, acc =>
    (rows.filter (fun r => r.ppid == parent)).foldl
      (fun acc2 row =>
        if acc2.any (fun c => c.pid == row.pid) then acc2
        else
          visitChildren rows fuel row.pid (depth + 1)
            (acc2 ++ [{ pid := row.pid, ppid := row.ppid, cmd := row.cmd, depth := depth }]))
      acc

/-- listChildren: all descendants of pid in the process table, depth-first,
root children at depth 1. -/
def listChildren (rows : List PsEntry) (pid : Nat) : List PsRow :=
  visitChildren rows (rows.length + 1) pid 1 []

/-- The three command-line regular expressions of isLikelyElectron, abstracted
as boolean predicates (their exact languages are irrelevant to the scoring
and selection logic). -/
structure ElectronPatterns where
  pathPattern : String → Bool
  namePattern : String → Bool
  helperPattern : String → Bool

/-- isLikelyElectron: +5 when the lower-cased command line contains the
launched binary's (non-empty, lower-cased) basename, +4 for the electron
binary path pattern, +3 for the electron binary name pattern, +1 for the
chrome/chromium helper pattern.  A row is matched when its score is
positive. -/
def isLikelyElectron (pats : ElectronPatterns) (launchedBasename : String) (cmd : String) : Nat :=
  let lower := strLower cmd
  let s0 := 0
  let s1 := if !launchedBasename.isEmpty && strIncludes lower launchedBasename then s0 + 5 else s0
  let s2 := if pats.pathPattern cmd then s1 + 4 else s1
  let s3 := if pats.namePattern cmd then s2 + 3 else s2
  let s4 := if pats.helperPattern cmd then s3 + 1 else s3
  s4

/-- A scored descendant row. -/
structure RankedRow where
  pid : Nat
  ppid : Nat
  cmd : String
  depth : Nat
  score : Nat
deriving DecidableEq, Repr

/-- The sort comparator of resolveElectronPid: a sorts strictly before b on
higher score, then on shallower depth, then on lower pid. -/
def rankLt (a b : RankedRow) : Bool :=
  if a.score ≠ b.score then decide (b.score < a.score)
  else if a.depth ≠ b.depth then decide (a.depth < b.depth)
  else decide (a.pid < b.pid)

/-- The head of the (stable) comparator sort, computed as a left fold keeping
the earliest minimum. -/
def pickTop : List RankedRow → Option RankedRow
  | [] => none
  | r :: rs => some (rs.foldl (fun best c => if rankLt c best then c else best) r)

/-- The ranked-and-filtered candidate list of resolveElectronPid: every
descendant scored, keeping the rows with a positive score. -/
def rankedMatched (pats : ElectronPatterns) (launchedBasename : String)
    (descendants : List PsRow) : List RankedRow :=
  (descendants.map (fun row =>
    ({ pid := row.pid, ppid := row.ppid, cmd := row.cmd, depth := row.depth,
       score := isLikelyElectron pats launchedBasename row.cmd } : RankedRow))).filter
    (fun r => 0 < r.score)

/-- resolveElectronPid: score every descendant, keep the matched ones, sort by
the comparator, and return the first pid, falling back to the root pid when
there are no descendants or none matched. -/
def resolveElectronPid (pats : ElectronPatterns) (launchedBasename : String)
    (rootPid : Nat) (descendants : List PsRow) : Nat :=
  match descendants with
  | [] => rootPid
  | _ =>
    match pickTop (rankedMatched pats launchedBasename descendants) with
    | some top => top.pid
    | none => rootPid

/-! ## Spawn environment construction (launchElectron) -/

/-- One JS object-spread style insertion into an environment. -/
def envInsert (e : String → Option String) (k v : String) : String → Option String :=
  fun q => if q = k then some v else e q

/-- The injected debugging variables spread over process.env: E2E, NODE_ENV,
ELECTRON_ENABLE_LOGGING and the CDP port variable. -/
def injectedBase (processEnv : String → Option String) (cdpPort : Nat) :
    String → Option String :=
  envInsert
    (envInsert
      (envInsert (envInsert processEnv "E2E" "1") "NODE_ENV" "test")
      "ELECTRON_ENABLE_LOGGING" "1")
    "E2E_CDP_PORT" (toString cdpPort)

/-- The env object passed to spawn: process.env, then the injected debugging
variables, then the caller's opts.env spread over them, and finally
E2E_HEADLESS forced to 1 when the headless option is set. -/
def buildEnv (processEnv : String → Option String) (cdpPort : Nat)
    (optsEnv : List (String × String)) (headless : Bool) : String → Option String :=
  let merged :=
    optsEnv.foldl (fun acc kv => envInsert acc kv.1 kv.2) (injectedBase processEnv cdpPort)
  if headless then envInsert merged "E2E_HEADLESS" "1" else merged

/-- The value the caller's overrides supply for a key (the last binding wins,
as in a JS object literal). -/
def callerValue (optsEnv : List (String × String)) (k : String) : Option String :=
  optsEnv.foldl (fun acc kv => if kv.1 = k then some kv.2 else acc) none

/-! ## Log descriptor cleanup (closeLogs and the failure path of launchElectron) -/

/-- State of the two captured log file descriptors: the logsClosed guard flag
and how many closeSync calls each descriptor has received. -/
structure LogState where
  logsClosed : Bool
  stdoutCloses : Nat
  stderrCloses : Nat
deriving DecidableEq, Repr

/-- closeLogs: a no-op once the guard flag is set; otherwise set it and close
both descriptors. -/
def closeLogs (s : LogState) : LogState :=
  if s.logsClosed then s
  else { logsClosed := true, stdoutCloses := s.stdoutCloses + 1, stderrCloses := s.stderrCloses + 1 }

/-- Result of running a cleanup path: whether termination of the spawned tree
was attempted, and the final descriptor state. -/
structure CleanupTrace where
  terminateAttempted : Bool
  log : LogState
deriving DecidableEq, Repr

/-- The quit closure: terminate the spawned tree when a child pid exists, then
close the log descriptors. -/
def quitCleanup (hasPid : Bool) (s : LogState) : CleanupTrace :=
  { terminateAttempted := hasPid, log := closeLogs s }

/-- The failure path of launchElectron: the catch block awaits quit (terminate
plus closeLogs) and rethrows, after which the finally block runs closeLogs
again. -/
def launchFailureCleanup (hasPid : Bool) (s : LogState) : CleanupTrace :=
  let t := quitCleanup hasPid s
  { terminateAttempted := t.terminateAttempted, log := closeLogs t.log }

/-! ## Theorems -/

/-! ### C10: flushConsole returns and removes exactly the matching entries -/

theorem contains_filter_eq (buffer : List ConsoleEntry) (p : ConsoleEntry → Bool)
    (e : ConsoleEntry) (he : e ∈ buffer) : (buffer.filter p).contains e = p e := by
  by_cases hpe : p e = true
  · have hmem : e ∈ buffer.filter p := List.mem_filter.mpr ⟨he, hpe⟩
    simp [List.elem_iff, hmem, hpe]
  · have hnot : e ∉ buffer.filter p := by
      intro hmem
      exact hpe (List.mem_filter.mp hmem).2
    simp only [Bool.not_eq_true] at hpe
    simp [List.elem_iff, hnot, hpe]

/-- C10: for every buffer state and every flushConsole filter, flushConsole
returns exactly the buffered entries matching the filter, removes exactly
those from the buffer leaving non-matching entries in place (in order), and an
immediate second call with the same filter returns the empty list. -/
theorem flushConsole_spec (buffer : List ConsoleEntry) (opts : FlushConsoleOptions) :
    (flushConsole buffer opts).1 = buffer.filter (consoleFilterPred opts) ∧
    (flushConsole buffer opts).2 = buffer.filter (fun e => !(consoleFilterPred opts e)) ∧
    (flushConsole ((flushConsole buffer opts).2) opts).1 = [] := by
  have hsecond :
      (flushConsole buffer opts).2 = buffer.filter (fun e => !(consoleFilterPred opts e)) := by
    show buffer.filter (fun e => !((buffer.filter (consoleFilterPred opts)).contains e)) =
      buffer.filter (fun e => !(consoleFilterPred opts e))
    refine List.filter_congr ?_
    intro a ha
    rw [contains_filter_eq buffer (consoleFilterPred opts) a ha]
  refine ⟨rfl, hsecond, ?_⟩
  rw [hsecond]
  show ((buffer.filter fun e => !(consoleFilterPred opts e)).filter (consoleFilterPred opts)) = []
  simp only [List.filter_eq_nil_iff]
  intro a ha
  have := (List.mem_filter.mp ha).2
  simp only [Bool.not_eq_true'] at this
  simp [this]

/-! ### C8: failed launches terminate the tree and close each log descriptor once -/

/-- C8: the failure path of launchElectron attempts to terminate the spawned
tree and closes both captured log descriptors; the logsClosed guard makes
closeLogs idempotent, so even though both the quit call and the finally block
run closeLogs, each descriptor is closed at most once (exactly once from the
fresh open state). -/
theorem launchFailureCleanup_spec (s : LogState) (hasPid : Bool) :
    closeLogs (closeLogs s) = closeLogs s ∧
    (launchFailureCleanup hasPid s).terminateAttempted = hasPid ∧
    (launchFailureCleanup hasPid s).log = closeLogs s ∧
    (launchFailureCleanup true ⟨false, 0, 0⟩).terminateAttempted = true ∧
    (launchFailureCleanup true ⟨false, 0, 0⟩).log.stdoutCloses = 1 ∧
    (launchFailureCleanup true ⟨false, 0, 0⟩).log.stderrCloses = 1 := by
  refine ⟨?_, ?_, ?_, by decide, by decide, by decide⟩
  · cases h : s.logsClosed <;> simp [closeLogs, h]
  · rfl
  · show closeLogs (closeLogs s) = closeLogs s
    cases h : s.logsClosed <;> simp [closeLogs, h]

/-! ### C9: env overrides (corrected: the headless toggle clobbers the caller) -/

/-- C9 counterexample: the claim says every key in the caller's environment
overrides keeps the caller-supplied value in the spawned environment, but
launchElectron assigns E2E_HEADLESS after spreading opts.env: a caller
override of E2E_HEADLESS as 0 together with the headless option yields 1. -/
theorem buildEnv_headless_counterexample :
    buildEnv (fun _ => none) 9222 [("E2E_HEADLESS", "0")] true "E2E_HEADLESS" = some "1" ∧
    callerValue [("E2E_HEADLESS", "0")] "E2E_HEADLESS" = some "0" ∧
    buildEnv (fun _ => none) 9222 [("E2E_HEADLESS", "0")] true "E2E_HEADLESS" ≠
      callerValue [("E2E_HEADLESS", "0")] "E2E_HEADLESS" := by
  refine ⟨rfl, rfl, ?_⟩
  intro h
  simp [buildEnv, envInsert, callerValue] at h

theorem envFold_apply (l : List (String × String)) (base : String → Option String) (k : String) :
    (l.foldl (fun acc kv => envInsert acc kv.1 kv.2) base) k =
      (l.foldl (fun acc kv => if kv.1 = k then some kv.2 else acc) (base k)) := by
  induction l generalizing base with
  | nil => rfl
  | cons kv rest ih =>
    show (rest.foldl (fun acc kv => envInsert acc kv.1 kv.2) (envInsert base kv.1 kv.2)) k = _
    rw [ih]
    by_cases h : kv.1 = k
    · simp [envInsert, h]
    · have h2 : ¬(k = kv.1) := fun hk => h hk.symm
      simp [envInsert, h, h2]

theorem acc_fold_callerValue (l : List (String × String)) (k : String) :
    ∀ a : Option String,
      (l.foldl (fun acc kv => if kv.1 = k then some kv.2 else acc) a) =
        match callerValue l k with
        | some v => some v
        | none => a := by
  induction l with
  | nil => intro a; rfl
  | cons kv rest ih =>
    intro a
    show (rest.foldl (fun acc kv => if kv.1 = k then some kv.2 else acc)
        (if kv.1 = k then some kv.2 else a)) = _
    have hcv : callerValue (kv :: rest) k =
        (rest.foldl (fun acc kv => if kv.1 = k then some kv.2 else acc)
          (if kv.1 = k then some kv.2 else none)) := rfl
    rw [ih, hcv, ih]
    cases hrest : callerValue rest k with
    | some v => rfl
    | none =>
      by_cases h : kv.1 = k <;> simp [h]

theorem buildEnv_apply (processEnv : String → Option String) (cdpPort : Nat)
    (optsEnv : List (String × String)) (headless : Bool) (q : String)
    (hnc : ¬(headless = true ∧ q = "E2E_HEADLESS")) :
    buildEnv processEnv cdpPort optsEnv headless q =
      match callerValue optsEnv q with
      | some w => some w
      | none => injectedBase processEnv cdpPort q := by
  cases hh : headless with
  | false =>
    show (optsEnv.foldl (fun acc kv => envInsert acc kv.1 kv.2)
      (injectedBase processEnv cdpPort)) q = _
    rw [envFold_apply, acc_fold_callerValue]
  | true =>
    have hq : ¬ q = "E2E_HEADLESS" := fun hqq => hnc ⟨hh, hqq⟩
    show (envInsert (optsEnv.foldl (fun acc kv => envInsert acc kv.1 kv.2)
      (injectedBase processEnv cdpPort)) "E2E_HEADLESS" "1") q = _
    rw [show (envInsert (optsEnv.foldl (fun acc kv => envInsert acc kv.1 kv.2)
        (injectedBase processEnv cdpPort)) "E2E_HEADLESS" "1") q =
        (optsEnv.foldl (fun acc kv => envInsert acc kv.1 kv.2)
          (injectedBase processEnv cdpPort)) q from by simp [envInsert, hq]]
    rw [envFold_apply, acc_fold_callerValue]

/-- C9 amended: every injected debugging variable is present exactly when the
caller did not supply it, and every caller-supplied override wins, except the
headless toggle: when the headless option is set, E2E_HEADLESS is 1 in the
spawned environment regardless of any caller-supplied value. -/
theorem buildEnv_spec (processEnv : String → Option String) (cdpPort : Nat)
    (optsEnv : List (String × String)) (headless : Bool) (k : String) (v : String) :
    (¬(headless = true ∧ k = "E2E_HEADLESS") → callerValue optsEnv k = some v →
        buildEnv processEnv cdpPort optsEnv headless k = some v) ∧
    (callerValue optsEnv "E2E_CDP_PORT" = none →
        buildEnv processEnv cdpPort optsEnv headless "E2E_CDP_PORT" = some (toString cdpPort)) ∧
    (callerValue optsEnv "E2E" = none →
        buildEnv processEnv cdpPort optsEnv headless "E2E" = some "1") ∧
    (callerValue optsEnv "NODE_ENV" = none →
        buildEnv processEnv cdpPort optsEnv headless "NODE_ENV" = some "test") ∧
    (callerValue optsEnv "ELECTRON_ENABLE_LOGGING" = none →
        buildEnv processEnv cdpPort optsEnv headless "ELECTRON_ENABLE_LOGGING" = some "1") ∧
    (headless = true →
        buildEnv processEnv cdpPort optsEnv headless "E2E_HEADLESS" = some "1") := by
  have hinj : ∀ q : String, ¬(headless = true ∧ q = "E2E_HEADLESS") →
      callerValue optsEnv q = none →
      buildEnv processEnv cdpPort optsEnv headless q = injectedBase processEnv cdpPort q := by
    intro q hq hnone
    rw [buildEnv_apply processEnv cdpPort optsEnv headless q hq, hnone]
  refine ⟨?_, ?_, ?_, ?_, ?_, ?_⟩
  · intro hnc hv
    rw [buildEnv_apply processEnv cdpPort optsEnv headless k hnc, hv]
  · intro hnone
    rw [hinj "E2E_CDP_PORT" (by simp) hnone]
    simp [injectedBase, envInsert]
  · intro hnone
    rw [hinj "E2E" (by simp) hnone]
    simp [injectedBase, envInsert]
  · intro hnone
    rw [hinj "NODE_ENV" (by simp) hnone]
    simp [injectedBase, envInsert]
  · intro hnone
    rw [hinj "ELECTRON_ENABLE_LOGGING" (by simp) hnone]
    simp [injectedBase, envInsert]
  · intro hh
    show (if headless then
        envInsert (optsEnv.foldl (fun acc kv => envInsert acc kv.1 kv.2)
          (injectedBase processEnv cdpPort)) "E2E_HEADLESS" "1"
      else optsEnv.foldl (fun acc kv => envInsert acc kv.1 kv.2)
        (injectedBase processEnv cdpPort)) "E2E_HEADLESS" = some "1"
    simp [hh, envInsert]

/-- Witness for buildEnv_spec at concrete inputs: a caller override of
NODE_ENV survives, and an absent E2E_CDP_PORT override receives the injected
port. -/
theorem buildEnv_spec_witness :
    buildEnv (fun _ => none) 7001 [("NODE_ENV", "production")] false "NODE_ENV"
        = some "production" ∧
    buildEnv (fun _ => none) 7001 [("NODE_ENV", "production")] false "E2E_CDP_PORT"
        = some (toString 7001) := by
  constructor
  · exact (buildEnv_spec (fun _ => none) 7001 [("NODE_ENV", "production")] false "NODE_ENV"
      "production").1 (by simp) (by rfl)
  · exact (buildEnv_spec (fun _ => none) 7001 [("NODE_ENV", "production")] false "E2E_CDP_PORT"
      "production").2.1 (by rfl)

/-! ### C3: terminateTree never throws, reports death promptly, false only
after every stage saw the process alive -/

theorem signalSweep_false_iff (alive : Nat → Bool) :
    ∀ l : List Nat, signalSweep alive l = false ↔ ∀ i ∈ l, alive i = true := by
  intro l
  induction l with
  | nil => simp [signalSweep]
  | cons i rest ih =>
    unfold signalSweep
    cases h : alive i with
    | false => simp [h]
    | true => simp [h, ih]

theorem pollUntil_false_iff (alive : Nat → Bool) :
    ∀ n i, pollUntil alive n i = false ↔ ∀ j, j < n → alive (i + j) = true := by
  intro n
  induction n with
  | zero => intro i; simp [pollUntil]
  | succ m ih =>
    intro i
    have hstep : pollUntil alive (m + 1) i
        = if !(alive i) then true else pollUntil alive m (i + 1) := rfl
    rw [hstep]
    cases h : alive i with
    | false =>
      simp only [h, Bool.not_false, if_true]
      constructor
      · intro hfalse
        cases hfalse
      · intro hall
        have h0 := hall 0 (Nat.succ_pos m)
        rw [Nat.add_zero] at h0
        rw [h0] at h
        cases h
    | true =>
      simp only [h, Bool.not_true, Bool.false_eq_true, if_false]
      rw [ih (i + 1)]
      constructor
      · intro hall j hj
        cases j with
        | zero => simpa using h
        | succ j2 =>
          have hmem := hall j2 (Nat.lt_of_succ_lt_succ hj)
          have harr : i + 1 + j2 = i + (j2 + 1) := by omega
          rwa [harr] at hmem
      · intro hall j hj
        have hmem := hall (j + 1) (Nat.succ_lt_succ hj)
        have harr : i + (j + 1) = i + 1 + j := by omega
        rwa [harr] at hmem

/-- C3: terminateTree is a total boolean function (it never throws); it
returns true as soon as any aliveness observation sees the pid dead — in
particular any call on an already-dead pid, including a repeated one, returns
true — and it returns false exactly when the process was still observed alive
after all three graduated signals, every deadline-poll check, and the final
check after the fallback child-kill sweep (and correspondingly for the
two-phase Windows branch). -/
theorem terminateTree_spec (alive : Nat → Bool) (pollCount : Nat) :
    (terminateTree alive pollCount = false ↔ ∀ i, i < 4 + pollCount → alive i = true) ∧
    ((∀ i, alive i = false) → terminateTree alive pollCount = true) ∧
    (terminateTreeWin32 alive pollCount = false ↔ ∀ i, i < 3 + pollCount → alive i = true) := by
  have hposix : terminateTree alive pollCount = false ↔
      ∀ i, i < 4 + pollCount → alive i = true := by
    unfold terminateTree
    constructor
    · intro h
      by_cases hs : signalSweep alive [0, 1, 2] = true
      · simp [hs] at h
      · have hs2 := Bool.not_eq_true _ |>.mp hs
        by_cases hp : pollUntil alive pollCount 3 = true
        · simp [hs2, hp] at h
        · have hp2 := Bool.not_eq_true _ |>.mp hp
          simp only [hs2, hp2, if_false] at h
          have hlast : alive (3 + pollCount) = true := by
            cases hl : alive (3 + pollCount) with
            | true => rfl
            | false => simp [hl] at h
          intro i hi
          rcases Nat.lt_or_ge i 3 with hi3 | hi3
          · have := (signalSweep_false_iff alive [0, 1, 2]).mp hs2 i
            interval_cases i <;> simp_all
          · rcases Nat.lt_or_ge i (3 + pollCount) with hip | hip
            · have := (pollUntil_false_iff alive pollCount 3).mp hp2 (i - 3) (by omega)
              have h3 : 3 + (i - 3) = i := by omega
              rwa [h3] at this
            · have : i = 3 + pollCount := by omega
              rwa [this]
    · intro hall
      have hs : signalSweep alive [0, 1, 2] = false := by
        rw [signalSweep_false_iff]
        intro i hi
        apply hall
        simp at hi
        omega
      have hp : pollUntil alive pollCount 3 = false := by
        rw [pollUntil_false_iff]
        intro j hj
        exact hall (3 + j) (by omega)
      have hlast : alive (3 + pollCount) = true := hall (3 + pollCount) (by omega)
      simp [hs, hp, hlast]
  have hwin : terminateTreeWin32 alive pollCount = false ↔
      ∀ i, i < 3 + pollCount → alive i = true := by
    unfold terminateTreeWin32
    constructor
    · intro h
      by_cases hs : signalSweep alive [0, 1] = true
      · simp [hs] at h
      · have hs2 := Bool.not_eq_true _ |>.mp hs
        by_cases hp : pollUntil alive pollCount 2 = true
        · simp [hs2, hp] at h
        · have hp2 := Bool.not_eq_true _ |>.mp hp
          simp only [hs2, hp2, if_false] at h
          have hlast : alive (2 + pollCount) = true := by
            cases hl : alive (2 + pollCount) with
            | true => rfl
            | false => simp [hl] at h
          intro i hi
          rcases Nat.lt_or_ge i 2 with hi2 | hi2
          · have := (signalSweep_false_iff alive [0, 1]).mp hs2 i
            interval_cases i <;> simp_all
          · rcases Nat.lt_or_ge i (2 + pollCount) with hip | hip
            · have := (pollUntil_false_iff alive pollCount 2).mp hp2 (i - 2) (by omega)
              have h2 : 2 + (i - 2) = i := by omega
              rwa [h2] at this
            · have : i = 2 + pollCount := by omega
              rwa [this]
    · intro hall
      have hs : signalSweep alive [0, 1] = false := by
        rw [signalSweep_false_iff]
        intro i hi
        apply hall
        simp at hi
        omega
      have hp : pollUntil alive pollCount 2 = false := by
        rw [pollUntil_false_iff]
        intro j hj
        exact hall (2 + j) (by omega)
      have hlast : alive (2 + pollCount) = true := hall (2 + pollCount) (by omega)
      simp [hs, hp, hlast]
  refine ⟨hposix, ?_, hwin⟩
  intro hdead
  cases ht : terminateTree alive pollCount with
  | true => rfl
  | false =>
    have := hposix.mp ht 0 (by omega)
    rw [hdead 0] at this
    exact absurd this (by simp)

/-- Witness for terminateTree_spec: an already-dead pid (every observation
reports dead) yields true, on both calls of a repeated invocation. -/
theorem terminateTree_spec_witness :
    terminateTree (fun _ => false) 2 = true ∧ terminateTree (fun _ => false) 2 = true :=
  ⟨(terminateTree_spec (fun _ => false) 2).2.1 (fun _ => rfl),
   (terminateTree_spec (fun _ => false) 2).2.1 (fun _ => rfl)⟩

/-! ### C2: first-isolated-context preload promotion and default-context
renderer classification -/

/-- C2: a context that classifies as an isolated kind, is not the automation
tool's internal utility context, and arrives while the page registry records
no preload-world context, is assigned the preload world; a context that
classifies as default/main keeps the renderer world; classifyWorld maps a
default-marked context to renderer; and the simulated creation sequence
(isolated, default, isolated) is assigned (preload, renderer, isolated). -/
theorem classifyWorld_spec :
    (∀ (contexts : List ContextInfo) (ctx : CtxDesc),
        classifyWorld ctx.auxData = ConsoleSource.isolated →
        strStarts ctx.name "__playwright_utility_world" = false →
        contexts.any (fun c => c.world == ConsoleSource.preload) = false →
        assignWorld contexts ctx = ConsoleSource.preload) ∧
    (∀ (contexts : List ContextInfo) (ctx : CtxDesc),
        classifyWorld ctx.auxData = ConsoleSource.renderer →
        strIncludes ctx.name "Electron Isolated Context" = false →
        assignWorld contexts ctx = ConsoleSource.renderer) ∧
    (∀ a : AuxData, a.isDefault = true →
        a.type ≠ "worker" → a.type ≠ "service_worker" → a.type ≠ "shared_worker" →
        a.type ≠ "node" →
        (a.type = "isolated" → strIncludes (strLower a.name) "preload" = false) →
        classifyWorld (some a) = ConsoleSource.renderer) ∧
    ((runContextSequence
        [⟨1, "", some ⟨"isolated", "", false, none⟩⟩,
         ⟨2, "", some ⟨"default", "", true, none⟩⟩,
         ⟨3, "", some ⟨"isolated", "", false, none⟩⟩]).map (fun c => c.world)
      = [ConsoleSource.preload, ConsoleSource.renderer, ConsoleSource.isolated]) := by
  refine ⟨?_, ?_, ?_, by decide⟩
  · intro contexts ctx h0 hutil hnopre
    cases hm : strIncludes ctx.name "Electron Isolated Context" with
    | true => simp [assignWorld, h0, hutil, hnopre, hm]
    | false => simp [assignWorld, h0, hutil, hnopre, hm]
  · intro contexts ctx h0 hm
    simp [assignWorld, h0, hm]
  · intro a hdef h1 h2 h3 h4 h5
    unfold classifyWorld
    by_cases ht : a.type = "isolated"
    · have h6 := h5 ht
      simp [ht, h1, h2, h3, h4, h6, hdef]
    · simp [ht, h1, h2, h3, h4, hdef]

/-- Witness for classifyWorld_spec: a first isolated context on a fresh page
registry is assigned the preload world. -/
theorem classifyWorld_spec_witness :
    assignWorld [] ⟨7, "", some ⟨"isolated", "", false, none⟩⟩ = ConsoleSource.preload :=
  classifyWorld_spec.1 [] ⟨7, "", some ⟨"isolated", "", false, none⟩⟩
    (by decide) (by decide) (by decide)

/-! ### C7: scorePage weights and requireMatch exclusion in pickBestPage -/

theorem pickBest_foldl_acc (pick : Option Pick) :
    ∀ (l : List PageModel) (a : PageModel),
      ∃ b, l.foldl (pickBestStep pick true) (some a) = some b ∧
        scorePage pick a ≤ scorePage pick b ∧
        (b = a ∨ (b ∈ l ∧ matchesPick pick true b = true)) := by
  intro l
  induction l with
  | nil => intro a; exact ⟨a, rfl, Nat.le_refl _, Or.inl rfl⟩
  | cons p rest ih =>
    intro a
    cases hm : matchesPick pick true p with
    | false =>
      have hstep : pickBestStep pick true (some a) p = some a := by
        simp [pickBestStep, hm]
      rcases ih a with ⟨b, hb, hle, hor⟩
      refine ⟨b, ?_, hle, ?_⟩
      · show (rest.foldl (pickBestStep pick true) (pickBestStep pick true (some a) p)) = some b
        rw [hstep]; exact hb
      · rcases hor with h | ⟨hmem, hmb⟩
        · exact Or.inl h
        · exact Or.inr ⟨List.mem_cons_of_mem p hmem, hmb⟩
    | true =>
      by_cases hgt : scorePage pick p > scorePage pick a
      · have hstep : pickBestStep pick true (some a) p = some p := by
          simp [pickBestStep, hm, hgt]
        rcases ih p with ⟨b, hb, hle, hor⟩
        refine ⟨b, ?_, Nat.le_trans (Nat.le_of_lt hgt) hle, ?_⟩
        · show (rest.foldl (pickBestStep pick true) (pickBestStep pick true (some a) p)) = some b
          rw [hstep]; exact hb
        · rcases hor with h | ⟨hmem, hmb⟩
          · exact Or.inr ⟨by rw [h]; exact List.mem_cons_self p rest, by rw [h]; exact hm⟩
          · exact Or.inr ⟨List.mem_cons_of_mem p hmem, hmb⟩
      · have hstep : pickBestStep pick true (some a) p = some a := by
          simp [pickBestStep, hm, hgt]
        rcases ih a with ⟨b, hb, hle, hor⟩
        refine ⟨b, ?_, hle, ?_⟩
        · show (rest.foldl (pickBestStep pick true) (pickBestStep pick true (some a) p)) = some b
          rw [hstep]; exact hb
        · rcases hor with h | ⟨hmem, hmb⟩
          · exact Or.inl h
          · exact Or.inr ⟨List.mem_cons_of_mem p hmem, hmb⟩

theorem pickBest_foldl_shape (pick : Option Pick) :
    ∀ (l : List PageModel) (acc : Option PageModel) (b : PageModel),
      l.foldl (pickBestStep pick true) acc = some b →
      acc = some b ∨ (b ∈ l ∧ matchesPick pick true b = true) := by
  intro l
  induction l with
  | nil => intro acc b h; exact Or.inl h
  | cons p rest ih =>
    intro acc b h
    have h2 : rest.foldl (pickBestStep pick true) (pickBestStep pick true acc p) = some b := h
    rcases ih (pickBestStep pick true acc p) b h2 with hacc | ⟨hmem, hmb⟩
    · cases hm : matchesPick pick true p with
      | false =>
        have hstep : pickBestStep pick true acc p = acc := by
          simp [pickBestStep, hm]
        rw [hstep] at hacc
        exact Or.inl hacc
      | true =>
        cases acc with
        | none =>
          have hstep : pickBestStep pick true none p = some p := by
            simp [pickBestStep, hm]
          rw [hstep] at hacc
          have hbp : p = b := by injection hacc
          exact Or.inr ⟨by rw [← hbp]; exact List.mem_cons_self p rest, by rw [← hbp]; exact hm⟩
        | some a =>
          by_cases hgt : scorePage pick p > scorePage pick a
          · have hstep : pickBestStep pick true (some a) p = some p := by
              simp [pickBestStep, hm, hgt]
            rw [hstep] at hacc
            have hbp : p = b := by injection hacc
            exact Or.inr ⟨by rw [← hbp]; exact List.mem_cons_self p rest, by rw [← hbp]; exact hm⟩
          · have hstep : pickBestStep pick true (some a) p = some a := by
              simp [pickBestStep, hm, hgt]
            rw [hstep] at hacc
            exact Or.inl hacc
    · exact Or.inr ⟨List.mem_cons_of_mem p hmem, hmb⟩

theorem pickBest_foldl_bound (pick : Option Pick) :
    ∀ (l : List PageModel) (acc : Option PageModel) (q : PageModel),
      q ∈ l → matchesPick pick true q = true →
      ∃ b, l.foldl (pickBestStep pick true) acc = some b ∧
        scorePage pick q ≤ scorePage pick b := by
  intro l
  induction l with
  | nil => intro acc q hq; exact absurd hq (List.not_mem_nil q)
  | cons p rest ih =>
    intro acc q hq hmq
    rcases List.mem_cons.mp hq with hqp | hqrest
    · subst hqp
      have hstep : ∃ a2, pickBestStep pick true acc q = some a2 ∧
          scorePage pick q ≤ scorePage pick a2 := by
        cases acc with
        | none => exact ⟨q, by simp [pickBestStep, hmq], Nat.le_refl _⟩
        | some a =>
          by_cases hgt : scorePage pick q > scorePage pick a
          · exact ⟨q, by simp [pickBestStep, hmq, hgt], Nat.le_refl _⟩
          · exact ⟨a, by simp [pickBestStep, hmq, hgt], Nat.le_of_not_lt hgt⟩
      rcases hstep with ⟨a2, hs, hle⟩
      rcases pickBest_foldl_acc pick rest a2 with ⟨b, hb, hle2, _⟩
      refine ⟨b, ?_, Nat.le_trans hle hle2⟩
      show (rest.foldl (pickBestStep pick true) (pickBestStep pick true acc q)) = some b
      rw [hs]; exact hb
    · exact ih (pickBestStep pick true acc p) q hqrest hmq

/-- C7: scorePage is exactly 0 plus 5 for a preferred local/app scheme, plus 4
for a specified-and-matching titleContains hint, plus 4 for a
specified-and-matching urlIncludes hint (a JS-falsy empty-string hint counts
as unspecified); and pickBestPage with requireMatch set only ever returns a
page satisfying every specified hint, with the maximal score among the
satisfying pages. -/
theorem scorePage_pickBestPage_spec :
    (∀ (pick : Option Pick) (page : PageModel),
        scorePage pick page =
          (if preferredUrlSchemes.any (fun p => strStarts page.url p) then 5 else 0) +
          (if hintMatches (pickTitleContains pick) page.title then 4 else 0) +
          (if hintMatches (pickUrlIncludes pick) page.url then 4 else 0)) ∧
    (∀ (pages : List PageModel) (pick : Option Pick) (b : PageModel),
        pickBestPage pages pick true = some b →
        b ∈ pages ∧ matchesPick pick true b = true ∧
        ∀ q ∈ pages, matchesPick pick true q = true →
          scorePage pick q ≤ scorePage pick b) := by
  constructor
  · intro pick page
    unfold scorePage
    split_ifs <;> decide
  · intro pages pick b hb
    have hshape := pickBest_foldl_shape pick pages none b hb
    rcases hshape with habs | ⟨hmem, hmb⟩
    · cases habs
    refine ⟨hmem, hmb, ?_⟩
    intro q hq hmq
    rcases pickBest_foldl_bound pick pages none q hq hmq with ⟨b2, hb2, hle⟩
    have : b2 = b := by
      rw [show pickBestPage pages pick true
          = pages.foldl (pickBestStep pick true) none from rfl] at hb
      rw [hb] at hb2
      injection hb2 with h
      exact h.symm
    rwa [this] at hle

/-- Witness for scorePage_pickBestPage_spec: the single matching app-scheme
page is returned and is maximal. -/
theorem scorePage_pickBestPage_spec_witness :
    (⟨"app://main/index.html", "Main"⟩ : PageModel) ∈
        [(⟨"app://main/index.html", "Main"⟩ : PageModel)] ∧
    matchesPick (some ⟨some "Main", none⟩) true ⟨"app://main/index.html", "Main"⟩ = true ∧
    ∀ q ∈ [(⟨"app://main/index.html", "Main"⟩ : PageModel)],
      matchesPick (some ⟨some "Main", none⟩) true q = true →
      scorePage (some ⟨some "Main", none⟩) q ≤
        scorePage (some ⟨some "Main", none⟩) ⟨"app://main/index.html", "Main"⟩ :=
  scorePage_pickBestPage_spec.2 [⟨"app://main/index.html", "Main"⟩]
    (some ⟨some "Main", none⟩) ⟨"app://main/index.html", "Main"⟩ (by decide)

/-! ### C1: the window-wait race (corrected: the race is not filtered by the
hints) -/

theorem raceFold_spec :
    ∀ (l : List Waiter) (a : Waiter),
      ((l.foldl (fun best c => if c.settleAt < best.settleAt then c else best) a) = a ∨
        (l.foldl (fun best c => if c.settleAt < best.settleAt then c else best) a) ∈ l) ∧
      (l.foldl (fun best c => if c.settleAt < best.settleAt then c else best) a).settleAt ≤
        a.settleAt ∧
      ∀ x ∈ l,
        (l.foldl (fun best c => if c.settleAt < best.settleAt then c else best) a).settleAt ≤
          x.settleAt := by
  intro l
  induction l with
  | nil =>
    intro a
    exact ⟨Or.inl rfl, Nat.le_refl _, fun x hx => absurd hx (List.not_mem_nil x)⟩
  | cons c rest ih =>
    intro a
    have hfold : (c :: rest).foldl (fun best c => if c.settleAt < best.settleAt then c else best) a
        = rest.foldl (fun best c => if c.settleAt < best.settleAt then c else best)
          (if c.settleAt < a.settleAt then c else a) := rfl
    by_cases hlt : c.settleAt < a.settleAt
    · rcases ih c with ⟨hor, hle, hall⟩
      rw [hfold, if_pos hlt]
      refine ⟨?_, ?_, ?_⟩
      · rcases hor with h | h
        · exact Or.inr (by rw [h]; exact List.mem_cons_self c rest)
        · exact Or.inr (List.mem_cons_of_mem c h)
      · exact Nat.le_trans hle (Nat.le_of_lt hlt)
      · intro x hx
        rcases List.mem_cons.mp hx with hxc | hxr
        · rw [hxc]; exact hle
        · exact hall x hxr
    · rcases ih a with ⟨hor, hle, hall⟩
      rw [hfold, if_neg hlt]
      refine ⟨?_, hle, ?_⟩
      · rcases hor with h | h
        · exact Or.inl h
        · exact Or.inr (List.mem_cons_of_mem c h)
      · intro x hx
        rcases List.mem_cons.mp hx with hxc | hxr
        · rw [hxc]
          exact Nat.le_trans hle (Nat.le_of_not_lt hlt)
        · exact hall x hxr

theorem raceWinner_min (ws : List Waiter) (w : Waiter) (h : raceWinner ws = some w) :
    w ∈ ws ∧ ∀ x ∈ ws, w.settleAt ≤ x.settleAt := by
  cases ws with
  | nil => cases h
  | cons a rest =>
    have hw : rest.foldl (fun best c => if c.settleAt < best.settleAt then c else best) a = w := by
      injection h
    rcases raceFold_spec rest a with ⟨hor, hle, hall⟩
    rw [hw] at hor hle hall
    refine ⟨?_, ?_⟩
    · rcases hor with h2 | h2
      · rw [h2]; exact List.mem_cons_self a rest
      · exact List.mem_cons_of_mem a h2
    · intro x hx
      rcases List.mem_cons.mp hx with hxa | hxr
      · rw [hxa]; exact hle
      · exact hall x hxr

theorem waitForWindow_flags (pages : List PageModel) (pick : Option Pick)
    (waiters : List Waiter) :
    ∀ wc ∈ (waitForWindow pages pick waiters).2, wc.2 = true := by
  intro wc hwc
  cases hpb : pickBestPage pages pick (mustMatchOf pick) with
  | some page =>
    simp only [waitForWindow, hpb] at hwc
    cases hwc
  | none =>
    cases hrw : raceWinner waiters with
    | none =>
      simp only [waitForWindow, hpb, hrw] at hwc
      cases hwc
    | some w =>
      cases hw : w.outcome with
      | newPage p =>
        simp only [waitForWindow, hpb, hrw, hw, List.mem_map] at hwc
        rcases hwc with ⟨wt, _, hwt⟩
        rw [← hwt]
      | timedOut =>
        simp only [waitForWindow, hpb, hrw, hw, List.mem_map] at hwc
        rcases hwc with ⟨wt, _, hwt⟩
        rw [← hwt]

/-- C1 counterexample: with a titleContains hint, no immediately matching
page, and a single context whose waiter produces a page that does not satisfy
the hint, waitForWindow resolves with that non-matching page — the race is
not filtered by the hints, refuting the claim that it resolves only with a
matching page. -/
theorem waitForWindow_nonmatching_counterexample :
    (waitForWindow [] (some ⟨some "Target", none⟩)
        [⟨WaiterOutcome.newPage ⟨"http://other.example", "Other"⟩, 5⟩]).1
      = WaitOutcome.resolved ⟨"http://other.example", "Other"⟩ ∧
    matchesPick (some ⟨some "Target", none⟩) true ⟨"http://other.example", "Other"⟩ = false := by
  decide

/-- C1 amended: when no open page satisfies the hints, waitForWindow races a
new-page wait across every open browsing context and resolves with the first
new page produced by any context (regardless of the hints); in both the
success and the failure branch it cancels every waiter, so no timed-out loser
is left as an unhandled rejection; and in the three-context scenario where
only the second context produces a page, it resolves with that page with
the other two waiters cancelled. -/
theorem waitForWindow_race_spec (pages : List PageModel) (pick : Option Pick)
    (waiters : List Waiter) :
    (∀ wc ∈ (waitForWindow pages pick waiters).2, wc.2 = true) ∧
    unhandledRejections (waitForWindow pages pick waiters).2 = 0 ∧
    (∀ w, pickBestPage pages pick (mustMatchOf pick) = none →
        raceWinner waiters = some w →
        (w ∈ waiters ∧ ∀ x ∈ waiters, w.settleAt ≤ x.settleAt) ∧
        (∀ p, w.outcome = WaiterOutcome.newPage p →
            (waitForWindow pages pick waiters).1 = WaitOutcome.resolved p) ∧
        (w.outcome = WaiterOutcome.timedOut →
            (waitForWindow pages pick waiters).1
              = WaitOutcome.rejected AppErrCode.E_WAIT_TIMEOUT)) ∧
    ((waitForWindow [] (some ⟨some "Main Window", none⟩)
        [⟨WaiterOutcome.timedOut, 10000⟩,
         ⟨WaiterOutcome.newPage ⟨"app://main/index.html", "Main Window"⟩, 500⟩,
         ⟨WaiterOutcome.timedOut, 10000⟩]).1
        = WaitOutcome.resolved ⟨"app://main/index.html", "Main Window"⟩ ∧
      unhandledRejections (waitForWindow [] (some ⟨some "Main Window", none⟩)
        [⟨WaiterOutcome.timedOut, 10000⟩,
         ⟨WaiterOutcome.newPage ⟨"app://main/index.html", "Main Window"⟩, 500⟩,
         ⟨WaiterOutcome.timedOut, 10000⟩]).2 = 0) := by
  refine ⟨waitForWindow_flags pages pick waiters, ?_, ?_, by decide⟩
  · unfold unhandledRejections
    rw [List.countP_eq_zero]
    intro wc hwc
    have := waitForWindow_flags pages pick waiters wc hwc
    simp [this]
  · intro w hpb hrw
    refine ⟨raceWinner_min waiters w hrw, ?_, ?_⟩
    · intro p hw
      simp only [waitForWindow, hpb, hrw, hw]
    · intro hw
      simp only [waitForWindow, hpb, hrw, hw]

/-- Witness for waitForWindow_race_spec: a concrete two-context race where
the winner is the second, earlier-settling waiter. -/
theorem waitForWindow_race_spec_witness :
    ((⟨WaiterOutcome.newPage ⟨"app://w", "W"⟩, 300⟩ : Waiter) ∈
        [(⟨WaiterOutcome.timedOut, 9000⟩ : Waiter), ⟨WaiterOutcome.newPage ⟨"app://w", "W"⟩, 300⟩] ∧
      ∀ x ∈ [(⟨WaiterOutcome.timedOut, 9000⟩ : Waiter),
          ⟨WaiterOutcome.newPage ⟨"app://w", "W"⟩, 300⟩],
        (300 : Nat) ≤ x.settleAt) ∧
    (∀ p, (WaiterOutcome.newPage ⟨"app://w", "W"⟩) = WaiterOutcome.newPage p →
        (waitForWindow [] none
          [⟨WaiterOutcome.timedOut, 9000⟩, ⟨WaiterOutcome.newPage ⟨"app://w", "W"⟩, 300⟩]).1
          = WaitOutcome.resolved p) ∧
    ((WaiterOutcome.newPage ⟨"app://w", "W"⟩) = WaiterOutcome.timedOut →
        (waitForWindow [] none
          [⟨WaiterOutcome.timedOut, 9000⟩, ⟨WaiterOutcome.newPage ⟨"app://w", "W"⟩, 300⟩]).1
          = WaitOutcome.rejected AppErrCode.E_WAIT_TIMEOUT) :=
  (waitForWindow_race_spec [] none
      [⟨WaiterOutcome.timedOut, 9000⟩, ⟨WaiterOutcome.newPage ⟨"app://w", "W"⟩, 300⟩]).2.2.1
    ⟨WaiterOutcome.newPage ⟨"app://w", "W"⟩, 300⟩ (by decide) (by decide)

/-! ### C6: leaf-pid resolution -/

theorem rankLt_iff (a b : RankedRow) :
    rankLt a b = true ↔
      (b.score < a.score ∨ (a.score = b.score ∧ a.depth < b.depth) ∨
        (a.score = b.score ∧ a.depth = b.depth ∧ a.pid < b.pid)) := by
  unfold rankLt
  by_cases h1 : a.score = b.score
  · by_cases h2 : a.depth = b.depth
    · simp [h1, h2]
    · simp [h1, h2]
  · simp [h1]

theorem rankLt_false_iff (a b : RankedRow) :
    rankLt a b = false ↔
      ¬(b.score < a.score ∨ (a.score = b.score ∧ a.depth < b.depth) ∨
        (a.score = b.score ∧ a.depth = b.depth ∧ a.pid < b.pid)) := by
  constructor
  · intro h hcontra
    rw [(rankLt_iff a b).mpr hcontra] at h
    cases h
  · intro h
    cases hr : rankLt a b with
    | false => rfl
    | true => exact absurd ((rankLt_iff a b).mp hr) h

theorem pickTop_foldl_spec :
    ∀ (l : List RankedRow) (a : RankedRow),
      ((l.foldl (fun best c => if rankLt c best then c else best) a) = a ∨
        (l.foldl (fun best c => if rankLt c best then c else best) a) ∈ l) ∧
      ∀ x, (x = a ∨ x ∈ l) →
        rankLt x (l.foldl (fun best c => if rankLt c best then c else best) a) = false := by
  intro l
  induction l with
  | nil =>
    intro a
    refine ⟨Or.inl rfl, ?_⟩
    intro x hx
    rcases hx with hx | hx
    · rw [List.foldl_nil, hx, rankLt_false_iff]
      omega
    · exact absurd hx (List.not_mem_nil x)
  | cons c rest ih =>
    intro a
    have hfold : (c :: rest).foldl (fun best c => if rankLt c best then c else best) a
        = rest.foldl (fun best c => if rankLt c best then c else best)
          (if rankLt c a then c else a) := rfl
    by_cases hlt : rankLt c a = true
    · rcases ih c with ⟨hor, hall⟩
      rw [hfold, if_pos hlt]
      refine ⟨?_, ?_⟩
      · rcases hor with h | h
        · exact Or.inr (by rw [h]; exact List.mem_cons_self c rest)
        · exact Or.inr (List.mem_cons_of_mem c h)
      · intro x hx
        rcases hx with hxa | hx2
        · subst hxa
          have hcr := hall c (Or.inl rfl)
          have hca := (rankLt_iff c x).mp hlt
          rw [rankLt_false_iff] at hcr ⊢
          rw [rankLt_iff] at *
          intro hcontra
          apply hcr
          omega
        · rcases List.mem_cons.mp hx2 with hxc | hxr
          · subst hxc
            exact hall x (Or.inl rfl)
          · exact hall x (Or.inr hxr)
    · have hlt2 : rankLt c a = false := by
        cases hr : rankLt c a
        · rfl
        · exact absurd hr hlt
      rcases ih a with ⟨hor, hall⟩
      rw [hfold, if_neg hlt]
      refine ⟨?_, ?_⟩
      · rcases hor with h | h
        · exact Or.inl h
        · exact Or.inr (List.mem_cons_of_mem c h)
      · intro x hx
        rcases hx with hxa | hx2
        · exact hall x (Or.inl hxa)
        · rcases List.mem_cons.mp hx2 with hxc | hxr
          · subst hxc
            have har := hall a (Or.inl rfl)
            rw [rankLt_false_iff] at har hlt2 ⊢
            intro hcontra
            apply har
            omega
          · exact hall x (Or.inr hxr)

theorem pickTop_spec (l : List RankedRow) (t : RankedRow) (h : pickTop l = some t) :
    t ∈ l ∧ ∀ x ∈ l, rankLt x t = false := by
  cases l with
  | nil => cases h
  | cons a rest =>
    have ht : rest.foldl (fun best c => if rankLt c best then c else best) a = t := by
      injection h
    rcases pickTop_foldl_spec rest a with ⟨hor, hall⟩
    rw [ht] at hor hall
    refine ⟨?_, ?_⟩
    · rcases hor with h2 | h2
      · rw [h2]; exact List.mem_cons_self a rest
      · exact List.mem_cons_of_mem a h2
    · intro x hx
      rcases List.mem_cons.mp hx with hxa | hxr
      · exact hall x (Or.inl hxa)
      · exact hall x (Or.inr hxr)

/-- C6: leaf-pid resolution returns the root pid when there are no descendants
or no descendant has a positive score; otherwise it returns the pid of a
matched descendant whose score is maximal, breaking score ties by shallowest
depth and then lowest pid; and the concrete process-tree scenario enumerates
all descendants with their depths, selects the one whose command line contains
the launched basename, and falls back to the root pid when nothing matches. -/
theorem resolveElectronPid_spec (pats : ElectronPatterns) (basename : String)
    (rootPid : Nat) (descendants : List PsRow) :
    (resolveElectronPid pats basename rootPid [] = rootPid) ∧
    ((∀ row ∈ descendants, isLikelyElectron pats basename row.cmd = 0) →
        resolveElectronPid pats basename rootPid descendants = rootPid) ∧
    (∀ row0 ∈ descendants, 0 < isLikelyElectron pats basename row0.cmd →
        ∃ top ∈ rankedMatched pats basename descendants,
          resolveElectronPid pats basename rootPid descendants = top.pid ∧
          ∀ x ∈ rankedMatched pats basename descendants,
            x.score ≤ top.score ∧
            (x.score = top.score → top.depth ≤ x.depth) ∧
            (x.score = top.score → x.depth = top.depth → top.pid ≤ x.pid)) ∧
    (listChildren
        [⟨10, 1, "launcher-shim"⟩, ⟨11, 10, "MyApp-Binary --flag"⟩,
         ⟨12, 10, "zygote-proc"⟩, ⟨13, 12, "gpu-helper"⟩, ⟨99, 2, "unrelated"⟩] 10
      = [⟨11, 10, "MyApp-Binary --flag", 1⟩, ⟨12, 10, "zygote-proc", 1⟩,
         ⟨13, 12, "gpu-helper", 2⟩]) ∧
    (resolveElectronPid ⟨fun _ => false, fun _ => false, fun _ => false⟩ "myapp-binary" 10
        [⟨11, 10, "MyApp-Binary --flag", 1⟩, ⟨12, 10, "zygote-proc", 1⟩,
         ⟨13, 12, "gpu-helper", 2⟩] = 11) ∧
    (resolveElectronPid ⟨fun _ => false, fun _ => false, fun _ => false⟩ "other-app" 10
        [⟨11, 10, "MyApp-Binary --flag", 1⟩, ⟨12, 10, "zygote-proc", 1⟩,
         ⟨13, 12, "gpu-helper", 2⟩] = 10) := by
  refine ⟨rfl, ?_, ?_, by decide, by decide, by decide⟩
  · intro hzero
    cases hd : descendants with
    | nil => rfl
    | cons d ds =>
      have hempty : rankedMatched pats basename descendants = [] := by
        unfold rankedMatched
        rw [List.filter_eq_nil_iff]
        intro r hr
        rcases List.mem_map.mp hr with ⟨row, hrow, hmap⟩
        have := hzero row hrow
        rw [← hmap]
        simp [this]
      rw [hd] at hempty
      show (match pickTop (rankedMatched pats basename (d :: ds)) with
        | some top => top.pid
        | none => rootPid) = rootPid
      rw [hempty]
      rfl
  · intro row0 hrow0 hpos
    have hr0 : (⟨row0.pid, row0.ppid, row0.cmd, row0.depth,
        isLikelyElectron pats basename row0.cmd⟩ : RankedRow) ∈
        rankedMatched pats basename descendants := by
      unfold rankedMatched
      refine List.mem_filter.mpr ⟨List.mem_map.mpr ⟨row0, hrow0, rfl⟩, ?_⟩
      simpa using hpos
    have hne : rankedMatched pats basename descendants ≠ [] := by
      intro hnil
      rw [hnil] at hr0
      cases hr0
    have hpt : ∃ t, pickTop (rankedMatched pats basename descendants) = some t := by
      cases hmt : rankedMatched pats basename descendants with
      | nil => exact absurd hmt hne
      | cons m ms => exact ⟨_, rfl⟩
    rcases hpt with ⟨t, hpt⟩
    rcases pickTop_spec _ t hpt with ⟨htmem, htall⟩
    refine ⟨t, htmem, ?_, ?_⟩
    · cases hd : descendants with
      | nil =>
        rw [hd] at hrow0
        cases hrow0
      | cons d ds =>
        rw [hd] at hpt
        show (match pickTop (rankedMatched pats basename (d :: ds)) with
          | some top => top.pid
          | none => rootPid) = t.pid
        rw [hpt]
    · intro x hx
      have := htall x hx
      rw [rankLt_false_iff] at this
      refine ⟨by omega, by omega, by omega⟩

/-- Witness for resolveElectronPid_spec: with no matching descendant the root
pid is returned. -/
theorem resolveElectronPid_spec_witness :
    resolveElectronPid ⟨fun _ => false, fun _ => false, fun _ => false⟩ "nomatch" 42
      [⟨50, 42, "helper-proc", 1⟩] = 42 :=
  (resolveElectronPid_spec ⟨fun _ => false, fun _ => false, fun _ => false⟩ "nomatch" 42
      [⟨50, 42, "helper-proc", 1⟩]).2.1 (by decide)

/-! ### C4: early child failure rejects the launch with E_EXIT_EARLY / E_SPAWN -/

/-- C4: a child exit or close that settles strictly before the debugging
endpoint becomes reachable makes launchElectron reject with E_EXIT_EARLY
carrying the exit code, signal, and the captured stderr log path, and the
launch never resolves successfully; a spawn error before readiness rejects
with E_SPAWN, also without resolving. -/
theorem launchRace_spec (stderrPath : String) (s : LaunchSchedule) (t : Nat) :
    (∀ code signal, s.early = some (t, EarlyEvent.exited code signal) → t < s.wsSettleAt →
        launchRace stderrPath s
            = LaunchResultModel.error (LaunchErrorModel.E_EXIT_EARLY code signal stderrPath) ∧
          ∀ url, launchRace stderrPath s ≠ LaunchResultModel.ok url) ∧
    (∀ msg, s.early = some (t, EarlyEvent.spawnError msg) → t < s.wsSettleAt →
        launchRace stderrPath s
            = LaunchResultModel.error (LaunchErrorModel.E_SPAWN stderrPath msg) ∧
          ∀ url, launchRace stderrPath s ≠ LaunchResultModel.ok url) := by
  constructor
  · intro code signal he hlt
    have hres : launchRace stderrPath s
        = LaunchResultModel.error (LaunchErrorModel.E_EXIT_EARLY code signal stderrPath) := by
      simp only [launchRace, he, hlt, if_true]
    refine ⟨hres, ?_⟩
    intro url hurl
    rw [hres] at hurl
    cases hurl
  · intro msg he hlt
    have hres : launchRace stderrPath s
        = LaunchResultModel.error (LaunchErrorModel.E_SPAWN stderrPath msg) := by
      simp only [launchRace, he, hlt, if_true]
    refine ⟨hres, ?_⟩
    intro url hurl
    rw [hres] at hurl
    cases hurl

/-- Witness for launchRace_spec: a child that exits with code 1 at 5 ms while
the endpoint would become reachable only at 1000 ms. -/
theorem launchRace_spec_witness :
    launchRace "/tmp/run/electron.stderr.log"
        ⟨1000, GetWsResult.ok "ws://127.0.0.1:9222/devtools/browser/x",
          some (5, EarlyEvent.exited (some 1) none)⟩
      = LaunchResultModel.error
          (LaunchErrorModel.E_EXIT_EARLY (some 1) none "/tmp/run/electron.stderr.log") ∧
    ∀ url, launchRace "/tmp/run/electron.stderr.log"
        ⟨1000, GetWsResult.ok "ws://127.0.0.1:9222/devtools/browser/x",
          some (5, EarlyEvent.exited (some 1) none)⟩
      ≠ LaunchResultModel.ok url :=
  (launchRace_spec "/tmp/run/electron.stderr.log"
      ⟨1000, GetWsResult.ok "ws://127.0.0.1:9222/devtools/browser/x",
        some (5, EarlyEvent.exited (some 1) none)⟩ 5).1
    (some 1) none rfl (by decide)

/-! ### C5: endpoint discovery polling -/

theorem getWsUrlLoop_timeoutErr_carries (env : Nat → FetchOutcome) (dur : Nat → Nat)
    (port timeoutMs : Nat) :
    ∀ fuel now attempt lastErr e,
      getWsUrlLoop env dur port timeoutMs fuel now attempt lastErr
          = GetWsResult.timeoutErr e →
      e.port = port ∧ e.timeoutMs = timeoutMs ∧
        (e.lastError = lastErr ∨
          ∃ k m, env k = FetchOutcome.fetchError m ∧ e.lastError = some m) := by
  intro fuel
  induction fuel with
  | zero =>
    intro now attempt lastErr e h
    have h2 : (⟨port, timeoutMs, lastErr⟩ : WsTimeoutDetails) = e := by
      injection h
    rw [← h2]
    exact ⟨rfl, rfl, Or.inl rfl⟩
  | succ m ih =>
    intro now attempt lastErr e h
    by_cases hnow : now < timeoutMs
    · rw [show getWsUrlLoop env dur port timeoutMs (m + 1) now attempt lastErr
          = if now < timeoutMs then
              match env attempt with
              | FetchOutcome.httpOk (some url) => GetWsResult.ok url
              | FetchOutcome.httpOk none =>
                getWsUrlLoop env dur port timeoutMs m
                  (now + min (dur attempt) (attemptBudget timeoutMs now) + 400)
                  (attempt + 1) lastErr
              | FetchOutcome.httpNotOk =>
                getWsUrlLoop env dur port timeoutMs m
                  (now + min (dur attempt) (attemptBudget timeoutMs now) + 400)
                  (attempt + 1) lastErr
              | FetchOutcome.fetchError msg =>
                getWsUrlLoop env dur port timeoutMs m
                  (now + min (dur attempt) (attemptBudget timeoutMs now) + 400)
                  (attempt + 1) (some msg)
            else GetWsResult.timeoutErr ⟨port, timeoutMs, lastErr⟩ from rfl,
        if_pos hnow] at h
      cases henv : env attempt with
      | httpOk o =>
        cases o with
        | some url =>
          rw [henv] at h
          cases h
        | none =>
          rw [henv] at h
          exact ih _ _ _ _ h
      | httpNotOk =>
        rw [henv] at h
        exact ih _ _ _ _ h
      | fetchError msg =>
        rw [henv] at h
        rcases ih _ _ _ _ h with ⟨hp, ht, hor⟩
        refine ⟨hp, ht, ?_⟩
        rcases hor with hl | hex
        · exact Or.inr ⟨attempt, msg, henv, hl⟩
        · exact Or.inr hex
    · rw [show getWsUrlLoop env dur port timeoutMs (m + 1) now attempt lastErr
          = if now < timeoutMs then
              match env attempt with
              | FetchOutcome.httpOk (some url) => GetWsResult.ok url
              | FetchOutcome.httpOk none =>
                getWsUrlLoop env dur port timeoutMs m
                  (now + min (dur attempt) (attemptBudget timeoutMs now) + 400)
                  (attempt + 1) lastErr
              | FetchOutcome.httpNotOk =>
                getWsUrlLoop env dur port timeoutMs m
                  (now + min (dur attempt) (attemptBudget timeoutMs now) + 400)
                  (attempt + 1) lastErr
              | FetchOutcome.fetchError msg =>
                getWsUrlLoop env dur port timeoutMs m
                  (now + min (dur attempt) (attemptBudget timeoutMs now) + 400)
                  (attempt + 1) (some msg)
            else GetWsResult.timeoutErr ⟨port, timeoutMs, lastErr⟩ from rfl,
        if_neg hnow] at h
      have h2 : (⟨port, timeoutMs, lastErr⟩ : WsTimeoutDetails) = e := by
        injection h
      rw [← h2]
      exact ⟨rfl, rfl, Or.inl rfl⟩

/-- C5: endpoint discovery polls the /json/version metadata URL on
127.0.0.1:port, defaults the overall timeout to 30000 ms, arms each attempt's
abort at min(1500 ms, remaining budget) — so a hung request costs at most
1500 ms and a later attempt can still succeed within budget — treats a non-OK
HTTP status only as "try again", and on overall timeout produces the timeout
error whose details carry the port, the timeout, and the last observed fetch
error (never one invented elsewhere), which launchElectron surfaces as the
distinct code E_CDP_TIMEOUT. -/
theorem getWsUrl_spec (env : Nat → FetchOutcome) (dur : Nat → Nat) (port : Nat) :
    (wsVersionUrl port = "http://127.0.0.1:" ++ toString port ++ "/json/version") ∧
    (getWsUrl env dur port none = getWsUrl env dur port (some 30000)) ∧
    (∀ timeoutMs now d,
        min d (attemptBudget timeoutMs now) ≤ PER_REQUEST_TIMEOUT_MS ∧
        min d (attemptBudget timeoutMs now) ≤ timeoutMs - now) ∧
    (∀ timeoutMs e, getWsUrl env dur port (some timeoutMs) = GetWsResult.timeoutErr e →
        e.port = port ∧ e.timeoutMs = timeoutMs ∧
        (e.lastError = none ∨
          ∃ k m, env k = FetchOutcome.fetchError m ∧ e.lastError = some m)) ∧
    (∀ d stderrPath wsTime,
        launchRace stderrPath ⟨wsTime, GetWsResult.timeoutErr d, none⟩
          = LaunchResultModel.error (LaunchErrorModel.E_CDP_TIMEOUT d)) ∧
    (getWsUrl
        (fun k => if k == 0 then FetchOutcome.fetchError "aborted: hung request"
          else FetchOutcome.httpOk (some "ws://127.0.0.1:9222/devtools/browser/x"))
        (fun k => if k == 0 then 1000000 else 0) 9222 (some 5000)
      = GetWsResult.ok "ws://127.0.0.1:9222/devtools/browser/x") ∧
    (getWsUrl
        (fun k => if k == 0 then FetchOutcome.httpNotOk
          else FetchOutcome.httpOk (some "ws://127.0.0.1:9222/devtools/browser/x"))
        (fun _ => 0) 9222 (some 1000)
      = GetWsResult.ok "ws://127.0.0.1:9222/devtools/browser/x") ∧
    (getWsUrl
        (fun k => FetchOutcome.fetchError
          (if k == 0 then "ECONNREFUSED first" else "ECONNREFUSED last"))
        (fun _ => 0) 9222 (some 1000)
      = GetWsResult.timeoutErr ⟨9222, 1000, some "ECONNREFUSED last"⟩) ∧
    (getWsUrl
        (fun k => if k == 0 then FetchOutcome.fetchError "boom" else FetchOutcome.httpNotOk)
        (fun _ => 0) 9222 (some 1000)
      = GetWsResult.timeoutErr ⟨9222, 1000, some "boom"⟩) := by
  refine ⟨rfl, rfl, ?_, ?_, ?_, by decide, by decide, by decide, by decide⟩
  · intro timeoutMs now d
    unfold attemptBudget PER_REQUEST_TIMEOUT_MS
    omega
  · intro timeoutMs e h
    exact getWsUrlLoop_timeoutErr_carries env dur port timeoutMs (timeoutMs + 1) 0 0 none e h
  · intro d stderrPath wsTime
    rfl

/-- Witness for getWsUrl_spec: the all-attempts-fail run carries the last
observed error in the E_CDP_TIMEOUT details. -/
theorem getWsUrl_spec_witness :
    (⟨9222, 1000, some "ECONNREFUSED last"⟩ : WsTimeoutDetails).port = 9222 ∧
    (⟨9222, 1000, some "ECONNREFUSED last"⟩ : WsTimeoutDetails).timeoutMs = 1000 ∧
    ((⟨9222, 1000, some "ECONNREFUSED last"⟩ : WsTimeoutDetails).lastError = none ∨
      ∃ k m,
        (fun k => FetchOutcome.fetchError
          (if k == 0 then "ECONNREFUSED first" else "ECONNREFUSED last")) k
            = FetchOutcome.fetchError m ∧
        (⟨9222, 1000, some "ECONNREFUSED last"⟩ : WsTimeoutDetails).lastError = some m) :=
  (getWsUrl_spec
      (fun k => FetchOutcome.fetchError
        (if k == 0 then "ECONNREFUSED first" else "ECONNREFUSED last"))
      (fun _ => 0) 9222).2.2.2.1 1000 ⟨9222, 1000, some "ECONNREFUSED last"⟩ (by decide)

end ElectronAgentTools
